import Mathlib

/-!
Verification of the numerical inversion/integration core of the
`moist_thermodynamics` package against its specification.

The algebraic parts of `src/moist_thermodynamics/functions.py` are embedded
as functions over the exact reals.  The third-party scalar solvers the code
delegates to (`scipy.optimize.newton`, `scipy.optimize.fsolve`) and the
lsoda stepper used by `moist_adiabat` are not part of the repository; they
are abstracted as function parameters, while every piece of arithmetic,
residual formation, branching and loop control that the repository itself
contains is embedded faithfully.
-/

noncomputable section

namespace MoistThermodynamics

/-- Modelled from the spec: the physical-constants table (`constants.py`) is
not under `src/`; the spec describes it as a static configuration of gas
constants, specific heats and reference enthalpies.  Gas constant of dry air
in J/kg/K (SI value). -/
def dry_air_gas_constant : ℝ := 287.04

/-- Modelled from the spec: gas constant of water vapor in J/kg/K (SI value),
from the constants table absent from `src/`. -/
def water_vapor_gas_constant : ℝ := 461.52

/-- Modelled from the spec: `eps1`, the ratio of the dry-air to the
water-vapor gas constant (`constants.rd_over_rv`). -/
def rd_over_rv : ℝ := dry_air_gas_constant / water_vapor_gas_constant

/-- Modelled from the spec: isobaric specific heat of dry air, J/kg/K. -/
def isobaric_dry_air_specific_heat : ℝ := 1006

/-- Modelled from the spec: isobaric specific heat of water vapor, J/kg/K. -/
def isobaric_water_vapor_specific_heat : ℝ := 1865

/-- Modelled from the spec: specific heat of liquid water, J/kg/K. -/
def liquid_water_specific_heat : ℝ := 4179

/-- Modelled from the spec: reference (standard) pressure in Pa. -/
def standard_pressure : ℝ := 100000

/-- Modelled from the spec: reference (standard) temperature in K. -/
def standard_temperature : ℝ := 273.15

/-- Modelled from the spec: vaporization enthalpy of water at the standard
temperature, J/kg. -/
def vaporization_enthalpy_stp : ℝ := 2500930

/-- Modelled from the spec: difference between the isobaric specific heat of
vapor and that of liquid water (`constants.delta_cl`). -/
def delta_cl : ℝ := isobaric_water_vapor_specific_heat - liquid_water_specific_heat

/-- Embedding of `vaporization_enthalpy` (functions.py, lines 59-75): linear
dependence on temperature about the reference value at the melting
temperature.  The Python default argument `delta_cl` is inlined. -/
def vaporization_enthalpy (TK : ℝ) : ℝ :=
  vaporization_enthalpy_stp + delta_cl * (TK - standard_temperature)

/-- Embedding of `partial_pressure_to_mixing_ratio` (functions.py, lines
98-105): `eps1 * pp / (p - pp)`. -/
def partial_pressure_to_mixing_ratio (pp p : ℝ) : ℝ :=
  rd_over_rv * pp / (p - pp)

/-- Embedding of `saturation_partition` (functions.py, lines 139-149):
`qs = partial_pressure_to_mixing_ratio(ps, P) * (1 - qt)` and the returned
vapor specific humidity is `np.minimum(qt, qs)`. -/
def saturation_partition (P ps qt : ℝ) : ℝ :=
  min qt ( partial_pressure_to_mixing_ratio ps P * (1 - qt))

/-- Embedding of `theta_l` (functions.py, lines 305-343), the liquid-water
potential temperature of Marquet and Stevens (2022), Eq. 16.  The Python
keyword argument `es` (saturation vapor pressure curve) is an explicit
function parameter. -/
def theta_l (TK PPa qt : ℝ) (es : ℝ → ℝ) : ℝ :=
  let ps := es TK
  let qv := saturation_partition PPa ps qt
  let ql := qt - qv
  let R := dry_air_gas_constant * (1 - qt) + qv * water_vapor_gas_constant
  let Rl := dry_air_gas_constant + qt * (water_vapor_gas_constant - dry_air_gas_constant)
  let cpl := isobaric_dry_air_specific_heat +
    qt * (isobaric_water_vapor_specific_heat - isobaric_dry_air_specific_heat)
  let omega_l := (R / Rl) ^ (Rl / cpl) *
    (qt / (qv + 1e-15)) ^ (qt * water_vapor_gas_constant / cpl)
  TK * (standard_pressure / PPa) ^ (Rl / cpl) * omega_l *
    Real.exp (-ql * vaporization_enthalpy TK / (cpl * TK))

/-- Embedding of `invert_for_temperature` (functions.py, lines 476-498).
The code forms the residual `zero(T) = f_val - f(T, P, qt, es)` and hands it
with the fixed initial guess 280 K to `scipy.optimize.newton`; the scipy
solver, which is not part of this repository, is abstracted as the
parameter `newton`. -/
def invert_for_temperature (newton : (ℝ → ℝ) → ℝ → ℝ)
    (f : ℝ → ℝ → ℝ → (ℝ → ℝ) → ℝ) (f_val P qt : ℝ) (es : ℝ → ℝ) : ℝ :=
  newton (fun T => f_val - f T P qt es) 280

/-- Embedding of `invert_for_pressure` (functions.py, lines 501-523): the
residual `zero(P) = f_val - f(T, P, qt, es)` is handed with the fixed
initial guess 80000 Pa to the abstracted `scipy.optimize.newton`. -/
def invert_for_pressure (newton : (ℝ → ℝ) → ℝ → ℝ)
    (f : ℝ → ℝ → ℝ → (ℝ → ℝ) → ℝ) (f_val T qt : ℝ) (es : ℝ → ℝ) : ℝ :=
  newton (fun P => f_val - f T P qt es) 80000

/-- Embedding of the inner `zero(P, Tl)` residual of `plcl` (functions.py,
lines 542-546): recover the trial temperature by inverting `theta_l` at the
fixed target `Tl`, form the saturation specific humidity
`qs = partial_pressure_to_mixing_ratio(es(TK), P) * (1 - qt)` and return
`|qs / qt - 1|`. -/
def plcl_zero (newton : (ℝ → ℝ) → ℝ → ℝ) (qt : ℝ) (es : ℝ → ℝ) (P Tl : ℝ) : ℝ :=
  let T := invert_for_temperature newton theta_l Tl P qt es
  let qs := partial_pressure_to_mixing_ratio (es T) P * (1 - qt)
  |qs / qt - 1|

/-- Embedding of `plcl` (functions.py, lines 526-549): compute
`Tl = theta_l(TK, PPa, qt, es)` at the starting state, then hand the
residual `zero(·, Tl)` with the initial guess 80000 Pa to
`scipy.optimize.fsolve`, abstracted as the parameter `fsolve` (the inner
`scipy.optimize.newton` is abstracted as `newton`). -/
def plcl (fsolve newton : (ℝ → ℝ) → ℝ → ℝ) (TK PPa qt : ℝ) (es : ℝ → ℝ) : ℝ :=
  let Tl := theta_l TK PPa qt es
  fsolve (fun P => plcl_zero newton qt es P Tl) 80000

/-- Embedding of the derivative function `f(P, T, qt, cc, l)` defined inside
`moist_adiabat` (functions.py, lines 649-671): recompute the phase
partition at the current trial temperature and pressure, form
`R = qd*Rd + qv*Rv`, `cp = qd*cpd + qv*cpv + qc*cc`, `vol = R*T/P`, and if
condensate is present apply the Clausius-Clapeyron corrections
`dX_dT += l(T)*qv*beta_T/T` and `dX_dP *= 1 + l(T)*qv*beta_P/(R*T)` with
`beta_P = R/(qd*Rd)` and `beta_T = beta_P*l(T)/(Rv*T)`; return
`dX_dP / dX_dT`.  The enclosing scope's `es` and the caller-supplied `cc`
and `l` are explicit parameters. -/
def moist_adiabat_f (es : ℝ → ℝ) (P T qt cc : ℝ) (l : ℝ → ℝ) : ℝ :=
  let qv := saturation_partition P (es T) qt
  let qc := qt - qv
  let qd := 1 - qt
  let R := qd * dry_air_gas_constant + qv * water_vapor_gas_constant
  let cp := qd * isobaric_dry_air_specific_heat +
    qv * isobaric_water_vapor_specific_heat + qc * cc
  let vol := R * T / P
  if 0 < qc then
    let beta_P := R / (qd * dry_air_gas_constant)
    let beta_T := beta_P * l T / (water_vapor_gas_constant * T)
    vol * (1 + l T * qv * beta_P / (R * T)) / (cp + l T * qv * beta_T / T)
  else
    vol / cp

/-- State of the abstracted `scipy.integrate.ode` solver object used by
`moist_adiabat`: the current independent variable `t` (pressure), the
current dependent value `y` (temperature) and the success flag reported by
`r.successful()`. -/
structure OdeState where
  t : ℝ
  y : ℝ
  ok : Bool

/-- Embedding of the integration loop of `moist_adiabat` (functions.py,
lines 673-682): `while r.successful() and r.t > Pend:
r.integrate(r.t + dP); Tx.append(r.y[0]); Px.append(r.t)`.  The lsoda
stepper `r.integrate` is abstracted as the parameter `integrate`; `fuel`
bounds the number of iterations, and `none` is returned only when the bound
is hit while the loop guard still holds, so a `some` result corresponds
exactly to a run on which the Python while-loop terminates. -/
def moist_adiabat_loop (integrate : ℝ → OdeState → OdeState) (dP Pend : ℝ) :
    ℕ → OdeState → List ℝ × List ℝ → Option (List ℝ × List ℝ)
  | 0, s, acc => if s.ok = true ∧ Pend < s.t then none else some acc
  | n + 1, s, acc =>
    if s.ok = true ∧ Pend < s.t then
      moist_adiabat_loop integrate dP Pend n (integrate (s.t + dP) s)
        (acc.1 ++ [(integrate (s.t + dP) s).y], acc.2 ++ [(integrate (s.t + dP) s).t])
    else some acc

/-- Embedding of `moist_adiabat` (functions.py, lines 615-682): the solver
object is initialised at `(Pbeg, Tbeg)` with a fresh success flag and the
trajectory lists start empty; the stepper (the lsoda integrator configured
with the derivative `moist_adiabat_f`) is abstracted as `integrate`. -/
def moist_adiabat (integrate : ℝ → OdeState → OdeState)
    (Tbeg Pbeg Pend dP : ℝ) (fuel : ℕ) : Option (List ℝ × List ℝ) :=
  moist_adiabat_loop integrate dP Pend fuel ⟨Pbeg, Tbeg, true⟩ ([], [])

/-- A model stepper that always succeeds and lands exactly on the requested
pressure while keeping the previous temperature; used to instantiate the
abstract solver at concrete inputs. -/
def integrate_id : ℝ → OdeState → OdeState := fun tgt s => ⟨tgt, s.y, true⟩

/-- A model stepper whose step always fails (the solver reports
`successful() == False` at the requested pressure, keeping the previous
temperature); used to exercise the loop's failure path. -/
def integrate_fail : ℝ → OdeState → OdeState := fun tgt s => ⟨tgt, s.y, false⟩

end MoistThermodynamics

namespace MoistThermodynamics

/-- C1: the Saturation Partitioner returns `qv = min(qt, qs)` with
`qs = rs * (1 - qt)` and `rs = eps1 * es_value / (P - es_value)`; hence
`qv = qt` exactly when `qt <= qs`, `qv = qs` otherwise, and the result is
continuous at the crossover (continuous in `qt` everywhere, and continuous
in the saturation vapor pressure wherever `P` differs from it). -/
theorem saturation_partition_min_spec (P ps qt : ℝ) :
    saturation_partition P ps qt =
      min qt (rd_over_rv * ps / (P - ps) * (1 - qt)) ∧
    (qt ≤ partial_pressure_to_mixing_ratio ps P * (1 - qt) →
      saturation_partition P ps qt = qt) ∧
    ( partial_pressure_to_mixing_ratio ps P * (1 - qt) < qt →
      saturation_partition P ps qt = partial_pressure_to_mixing_ratio ps P * (1 - qt)) ∧
    Continuous (fun q : ℝ => saturation_partition P ps q) ∧
    (∀ e : ℝ, P - e ≠ 0 → ContinuousAt (fun x : ℝ => saturation_partition P x qt) e) := by
  refine ⟨rfl, fun h => min_eq_left h, fun h => min_eq_right h.le, ?_, ?_⟩
  · show Continuous fun q : ℝ => min q (rd_over_rv * ps / (P - ps) * (1 - q))
    exact continuous_id.min (continuous_const.mul (continuous_const.sub continuous_id))
  · intro e he
    show ContinuousAt (fun x : ℝ => min qt (rd_over_rv * x / (P - x) * (1 - qt))) e
    exact continuousAt_const.min
      ((((continuousAt_const.mul continuousAt_id).div
        (continuousAt_const.sub continuousAt_id) he)).mul continuousAt_const)

/-- Witness for C1 at a concrete sub-saturated state: `qt = 0.017`,
`P = 100000`, `es = 3000` gives `qt <= qs`, and the partitioner returns
`qv = qt`. -/
theorem saturation_partition_min_spec_witness :
    ((17 / 1000 : ℝ) ≤ partial_pressure_to_mixing_ratio 3000 100000 * (1 - 17 / 1000)) ∧
    saturation_partition 100000 3000 (17 / 1000) = 17 / 1000 :=
  ⟨by norm_num [ partial_pressure_to_mixing_ratio, rd_over_rv, dry_air_gas_constant,
      water_vapor_gas_constant],
   (saturation_partition_min_spec 100000 3000 (17 / 1000)).2.1
    (by norm_num [ partial_pressure_to_mixing_ratio, rd_over_rv, dry_air_gas_constant,
      water_vapor_gas_constant])⟩

/-- C10: on the valid domain `0 < ps < P`, `0 <= qt < 1`, the returned vapor
specific humidity satisfies `0 <= qv <= qt`, so the condensate `qt - qv` is
non-negative and the vapor never exceeds the total water. -/
theorem saturation_partition_bounds (P ps qt : ℝ)
    (hps : 0 < ps) (hpsP : ps < P) (hqt0 : 0 ≤ qt) (hqt1 : qt < 1) :
    0 ≤ saturation_partition P ps qt ∧ saturation_partition P ps qt ≤ qt := by
  have heps : 0 < rd_over_rv := by
    norm_num [rd_over_rv, dry_air_gas_constant, water_vapor_gas_constant]
  have hqs : 0 ≤ partial_pressure_to_mixing_ratio ps P * (1 - qt) := by
    have h1 : 0 ≤ rd_over_rv * ps / (P - ps) :=
      div_nonneg (mul_nonneg heps.le hps.le) (by linarith)
    exact mul_nonneg h1 (by linarith)
  exact ⟨le_min hqt0 hqs, min_le_left _ _⟩

/-- Witness for C10 at `P = 80000`, `ps = 2000`, `qt = 0.01`. -/
theorem saturation_partition_bounds_witness :
    ((0 : ℝ) < 2000 ∧ (2000 : ℝ) < 80000 ∧ (0 : ℝ) ≤ 1 / 100 ∧ (1 / 100 : ℝ) < 1) ∧
    (0 ≤ saturation_partition 80000 2000 (1 / 100) ∧
      saturation_partition 80000 2000 (1 / 100) ≤ 1 / 100) :=
  ⟨by norm_num,
   saturation_partition_bounds 80000 2000 (1 / 100)
    (by norm_num) (by norm_num) (by norm_num) (by norm_num)⟩

/-- C7 counterexample: at `P = 50000 < es_value = 60000`, `qt = 0.01` the
partitioner does not signal any invalid-state error; it returns the value
computed from the negative saturation mixing ratio, a negative vapor
specific humidity. -/
theorem saturation_partition_c7_counterexample :
    saturation_partition 50000 60000 (1 / 100) =
      rd_over_rv * 60000 / (50000 - 60000) * (1 - 1 / 100) ∧
    saturation_partition 50000 60000 (1 / 100) < 0 := by
  have h : rd_over_rv * 60000 / (50000 - 60000) * (1 - 1 / 100 : ℝ) < 0 := by
    norm_num [rd_over_rv, dry_air_gas_constant, water_vapor_gas_constant]
  have he : saturation_partition 50000 60000 (1 / 100) =
      rd_over_rv * 60000 / (50000 - 60000) * (1 - 1 / 100) := by
    show min (1 / 100 : ℝ) _ = _
    refine min_eq_right ?_
    show rd_over_rv * 60000 / (50000 - 60000) * (1 - 1 / 100 : ℝ) ≤ 1 / 100
    linarith
  exact ⟨he, he ▸ h⟩

/-- C7 amended: `saturation_partition` performs no domain check.  Whenever
`P < es_value` (with `0 < es_value`, `0 <= qt < 1`) it silently returns
`qs = eps1 * es_value / (P - es_value) * (1 - qt)`, the value computed from
the negative mixing ratio, which is negative. -/
theorem saturation_partition_invalid_silent (P ps qt : ℝ)
    (hps : 0 < ps) (hPps : P < ps) (hqt0 : 0 ≤ qt) (hqt1 : qt < 1) :
    saturation_partition P ps qt = rd_over_rv * ps / (P - ps) * (1 - qt) ∧
    saturation_partition P ps qt < 0 := by
  have heps : 0 < rd_over_rv := by
    norm_num [rd_over_rv, dry_air_gas_constant, water_vapor_gas_constant]
  have hqs : rd_over_rv * ps / (P - ps) * (1 - qt) < 0 := by
    have h1 : rd_over_rv * ps / (P - ps) < 0 :=
      div_neg_of_pos_of_neg (mul_pos heps hps) (by linarith)
    exact mul_neg_of_neg_of_pos h1 (by linarith)
  have he : saturation_partition P ps qt = rd_over_rv * ps / (P - ps) * (1 - qt) := by
    show min qt _ = _
    refine min_eq_right ?_
    show rd_over_rv * ps / (P - ps) * (1 - qt) ≤ qt
    linarith
  exact ⟨he, he ▸ hqs⟩

/-- Witness for the amended C7 at `P = 90000`, `es_value = 95000`,
`qt = 0.02`. -/
theorem saturation_partition_invalid_silent_witness :
    ((0 : ℝ) < 95000 ∧ (90000 : ℝ) < 95000 ∧ (0 : ℝ) ≤ 1 / 50 ∧ (1 / 50 : ℝ) < 1) ∧
    (saturation_partition 90000 95000 (1 / 50) =
        rd_over_rv * 95000 / (90000 - 95000) * (1 - 1 / 50) ∧
      saturation_partition 90000 95000 (1 / 50) < 0) :=
  ⟨by norm_num,
   saturation_partition_invalid_silent 90000 95000 (1 / 50)
    (by norm_num) (by norm_num) (by norm_num) (by norm_num)⟩

/-- C8: both scalar inversions form the residual
`r(x) = target_value - target_fn(x, fixed_args, es)` and hand it to the
injected iterative solver with the fixed initial guess 280 K (temperature)
respectively 80000 Pa (pressure); a zero of the residual is exactly a state
where the target function attains the target value. -/
theorem invert_residual_and_guess (newton : (ℝ → ℝ) → ℝ → ℝ)
    (f : ℝ → ℝ → ℝ → (ℝ → ℝ) → ℝ) (f_val P T qt : ℝ) (es : ℝ → ℝ) :
    invert_for_temperature newton f f_val P qt es =
      newton (fun x => f_val - f x P qt es) 280 ∧
    invert_for_pressure newton f f_val T qt es =
      newton (fun x => f_val - f T x qt es) 80000 ∧
    (∀ x : ℝ, f_val - f x P qt es = 0 ↔ f x P qt es = f_val) := by
  refine ⟨rfl, rfl, fun x => ?_⟩
  rw [sub_eq_zero, eq_comm]

/-- C4: the LCL solver first evaluates the liquid-water potential
temperature `Tl = theta_l(TK, PPa, qt, es)` at the starting state, then
hands the outer residual `P ↦ |qs/qt - 1|` with the initial guess 80000 Pa
to the derivative-free solver, where at each trial pressure the temperature
is recovered by `invert_for_temperature` applied to `theta_l` at the fixed
target `Tl`; the outer residual is the stated absolute value and is
non-negative. -/
theorem plcl_nested_structure (fsolve newton : (ℝ → ℝ) → ℝ → ℝ)
    (TK PPa qt : ℝ) (es : ℝ → ℝ) :
    plcl fsolve newton TK PPa qt es =
      fsolve (fun P => plcl_zero newton qt es P (theta_l TK PPa qt es)) 80000 ∧
    (∀ P Tl : ℝ, plcl_zero newton qt es P Tl =
      |( partial_pressure_to_mixing_ratio
          (es (invert_for_temperature newton theta_l Tl P qt es)) P * (1 - qt)) / qt - 1|) ∧
    (∀ P Tl : ℝ, 0 ≤ plcl_zero newton qt es P Tl) :=
  ⟨rfl, fun _ _ => rfl, fun _ _ => abs_nonneg _⟩

/-- C5: at every evaluation point the integrand is `vol_eff / cp_eff` with
`cp_eff = qd*cpd + qv*cpv + qc*cc` computed from the phase partition
recomputed at the current trial temperature and pressure; exactly when
condensate is present (`qc > 0`) `cp_eff` receives the additive and
`vol_eff` the multiplicative Clausius-Clapeyron correction built from the
caller-supplied enthalpy `l`, and for `qc = 0` the formula reduces to the
unsaturated moist adiabatic lapse relation `R*T/(P*cp)` with all water as
vapor. -/
theorem moist_adiabat_f_spec (es l : ℝ → ℝ) (P T qt cc qv R cp : ℝ)
    (hqv : qv = saturation_partition P (es T) qt)
    (hR : R = (1 - qt) * dry_air_gas_constant + qv * water_vapor_gas_constant)
    (hcp : cp = (1 - qt) * isobaric_dry_air_specific_heat +
      qv * isobaric_water_vapor_specific_heat + (qt - qv) * cc) :
    (qt - qv ≤ 0 → moist_adiabat_f es P T qt cc l = R * T / P / cp) ∧
    (0 < qt - qv → moist_adiabat_f es P T qt cc l =
      R * T / P * (1 + l T * qv * (R / ((1 - qt) * dry_air_gas_constant)) / (R * T)) /
        (cp + l T * qv *
          (R / ((1 - qt) * dry_air_gas_constant) * l T / (water_vapor_gas_constant * T)) / T)) ∧
    (qt - qv = 0 → moist_adiabat_f es P T qt cc l =
      ((1 - qt) * dry_air_gas_constant + qt * water_vapor_gas_constant) * T /
        (P * ((1 - qt) * isobaric_dry_air_specific_heat +
          qt * isobaric_water_vapor_specific_heat))) := by
  subst hqv hR hcp
  refine ⟨fun h => ?_, fun h => ?_, fun h => ?_⟩
  · simp only [moist_adiabat_f]
    rw [if_neg (not_lt.mpr h)]
  · simp only [moist_adiabat_f]
    rw [if_pos h]
  · have hqv2 : saturation_partition P (es T) qt = qt := by linarith
    simp only [moist_adiabat_f]
    rw [if_neg (not_lt.mpr h.le), hqv2, sub_self, zero_mul, add_zero, div_div]

/-- Witness for C5 at a concrete sub-saturated state (`qt = 0.017`,
`P = 100000`, `es = 3000`): no condensate, so the integrand equals the
unsaturated lapse relation. -/
theorem moist_adiabat_f_spec_witness :
    ((17 / 1000 : ℝ) - saturation_partition 100000 3000 (17 / 1000) = 0) ∧
    moist_adiabat_f (fun _ => 3000) 100000 300 (17 / 1000) 4179 (fun _ => 2500000) =
      ((1 - 17 / 1000) * dry_air_gas_constant + (17 / 1000) * water_vapor_gas_constant) * 300 /
        (100000 * ((1 - 17 / 1000) * isobaric_dry_air_specific_heat +
          (17 / 1000) * isobaric_water_vapor_specific_heat)) := by
  have h : (17 / 1000 : ℝ) - saturation_partition 100000 3000 (17 / 1000) = 0 := by
    norm_num [saturation_partition, partial_pressure_to_mixing_ratio, rd_over_rv,
      dry_air_gas_constant, water_vapor_gas_constant, min_def]
  exact ⟨h, (moist_adiabat_f_spec (fun _ => 3000) (fun _ => 2500000) 100000 300 (17 / 1000)
    4179 _ _ _ rfl rfl rfl).2.2 h⟩

/-- Decrementing a real by one decrements its ceiling-to-Nat, given the
value of the ceiling. -/
lemma nat_ceil_pred_of_eq_succ {r : ℝ} {n : ℕ} (h : ⌈r⌉₊ = n + 1) : ⌈r - 1⌉₊ = n := by
  have h1 : (n : ℝ) < r := Nat.lt_ceil.mp (by rw [h]; exact n.lt_succ_self)
  have h2 : r ≤ ((n + 1 : ℕ) : ℝ) := Nat.ceil_le.mp h.le
  cases n with
  | zero =>
    refine Nat.ceil_eq_zero.mpr ?_
    push_cast at h2
    linarith
  | succ m =>
    rw [Nat.ceil_eq_iff (Nat.succ_ne_zero m)]
    push_cast at h1 h2
    constructor
    · simpa using by linarith [h1]
    · push_cast
      linarith

/-- Closed form of the `moist_adiabat` while-loop for an ideal stepper that
always succeeds and lands on the requested pressure: with enough fuel the
loop terminates and the pressure column is the arithmetic progression
stepping by `dP` from the start until `Pend` is crossed. -/
lemma moist_adiabat_loop_ideal (integrate : ℝ → OdeState → OdeState)
    (Ht : ∀ tgt s, (integrate tgt s).t = tgt)
    (Hok : ∀ tgt s, (integrate tgt s).ok = true)
    (dP Pend : ℝ) (hdP : dP < 0) :
    ∀ n : ℕ, ∀ s : OdeState, ∀ acc : List ℝ × List ℝ,
      s.ok = true → ⌈(s.t - Pend) / (-dP)⌉₊ = n → ∀ fuel : ℕ, n ≤ fuel →
      ∃ Ty : List ℝ,
        moist_adiabat_loop integrate dP Pend fuel s acc =
          some (acc.1 ++ Ty,
            acc.2 ++ (List.range n).map fun k : ℕ => s.t + ((k : ℝ) + 1) * dP) := by
  have hndP : 0 < -dP := neg_pos.mpr hdP
  intro n
  induction n with
  | zero =>
    intro s acc hok hceil fuel _
    have hle : s.t ≤ Pend := by
      have h0 : (s.t - Pend) / (-dP) ≤ 0 := Nat.ceil_eq_zero.mp hceil
      have h1 := mul_le_mul_of_nonneg_right h0 hndP.le
      rw [div_mul_cancel₀ _ (ne_of_gt hndP)] at h1
      linarith
    have hcond : ¬(s.ok = true ∧ Pend < s.t) := fun hc => absurd hc.2 (not_lt.mpr hle)
    refine ⟨[], ?_⟩
    cases fuel with
    | zero => simp only [moist_adiabat_loop]; rw [if_neg hcond]; simp
    | succ m => simp only [moist_adiabat_loop]; rw [if_neg hcond]; simp
  | succ n ih =>
    intro s acc hok hceil fuel hfuel
    have hpos : 0 < (s.t - Pend) / (-dP) := Nat.ceil_pos.mp (by rw [hceil]; exact n.succ_pos)
    have hst : Pend < s.t := by
      have h1 := mul_pos hpos hndP
      rw [div_mul_cancel₀ _ (ne_of_gt hndP)] at h1
      linarith
    obtain ⟨m, rfl⟩ : ∃ m, fuel = m + 1 := ⟨fuel - 1, by omega⟩
    have hs2t : (integrate (s.t + dP) s).t = s.t + dP := Ht _ _
    have hs2ok : (integrate (s.t + dP) s).ok = true := Hok _ _
    have hceil2 : ⌈((integrate (s.t + dP) s).t - Pend) / (-dP)⌉₊ = n := by
      rw [hs2t]
      have hdP0 : dP ≠ 0 := ne_of_lt hdP
      have harith : (s.t + dP - Pend) / (-dP) = (s.t - Pend) / (-dP) - 1 := by
        field_simp
        ring
      rw [harith]
      exact nat_ceil_pred_of_eq_succ hceil
    obtain ⟨Ty, hTy⟩ := ih (integrate (s.t + dP) s)
      (acc.1 ++ [(integrate (s.t + dP) s).y], acc.2 ++ [(integrate (s.t + dP) s).t])
      hs2ok hceil2 m (by omega)
    refine ⟨(integrate (s.t + dP) s).y :: Ty, ?_⟩
    simp only [moist_adiabat_loop]
    rw [if_pos ⟨hok, hst⟩, hTy]
    have hfst : (acc.1 ++ [(integrate (s.t + dP) s).y]) ++ Ty =
        acc.1 ++ ((integrate (s.t + dP) s).y :: Ty) := by
      simp
    have hsnd : (acc.2 ++ [(integrate (s.t + dP) s).t]) ++
        ((List.range n).map fun k : ℕ => (integrate (s.t + dP) s).t + ((k : ℝ) + 1) * dP) =
        acc.2 ++ (List.range (n + 1)).map fun k : ℕ => s.t + ((k : ℝ) + 1) * dP := by
      rw [hs2t, List.append_assoc]
      congr 1
      rw [List.range_succ_eq_map]
      simp only [List.map_cons, List.map_map, List.singleton_append]
      congr 1
      · push_cast
        ring
      · refine List.map_congr_left fun a _ => ?_
        simp only [Function.comp_apply]
        push_cast
        ring
    rw [hfst, hsnd]

/-- C6 amended: only decreasing-pressure integration is carried out.  For
`dP < 0` and any stepper that succeeds and lands on the requested pressure,
the loop terminates within `⌈(Pbeg - Pend)/(-dP)⌉` iterations, the returned
pressure column is the arithmetic progression stepping by `dP` from
`Pbeg`, it is strictly decreasing, every element but the last lies above
`Pend`, and the final pressure has crossed `Pend`; when `Pbeg ≤ Pend` the
guard fails immediately and the pressure column is empty. -/
theorem moist_adiabat_descending (integrate : ℝ → OdeState → OdeState)
    (Ht : ∀ tgt s, (integrate tgt s).t = tgt)
    (Hok : ∀ tgt s, (integrate tgt s).ok = true)
    (Tbeg Pbeg Pend dP : ℝ) (hdP : dP < 0) (fuel : ℕ)
    (hfuel : ⌈(Pbeg - Pend) / (-dP)⌉₊ ≤ fuel) :
    ∃ Tx : List ℝ,
      moist_adiabat integrate Tbeg Pbeg Pend dP fuel =
        some (Tx, (List.range ⌈(Pbeg - Pend) / (-dP)⌉₊).map
          fun k : ℕ => Pbeg + ((k : ℝ) + 1) * dP) ∧
      ((List.range ⌈(Pbeg - Pend) / (-dP)⌉₊).map
        fun k : ℕ => Pbeg + ((k : ℝ) + 1) * dP).Pairwise (fun a b => b < a) ∧
      (∀ k : ℕ, k + 1 < ⌈(Pbeg - Pend) / (-dP)⌉₊ → Pend < Pbeg + ((k : ℝ) + 1) * dP) ∧
      Pbeg + (⌈(Pbeg - Pend) / (-dP)⌉₊ : ℝ) * dP ≤ Pend ∧
      (Pbeg ≤ Pend → ((List.range ⌈(Pbeg - Pend) / (-dP)⌉₊).map
        fun k : ℕ => Pbeg + ((k : ℝ) + 1) * dP) = ([] : List ℝ)) := by
  have hndP : 0 < -dP := neg_pos.mpr hdP
  obtain ⟨Ty, hTy⟩ := moist_adiabat_loop_ideal integrate Ht Hok dP Pend hdP
    ⌈(Pbeg - Pend) / (-dP)⌉₊ ⟨Pbeg, Tbeg, true⟩ ([], []) rfl rfl fuel hfuel
  refine ⟨Ty, ?_, ?_, ?_, ?_, ?_⟩
  · show moist_adiabat_loop integrate dP Pend fuel ⟨Pbeg, Tbeg, true⟩ ([], []) = _
    rw [hTy]
    simp
  · refine List.pairwise_map.mpr ?_
    refine (List.pairwise_lt_range _).imp ?_
    intro i j hij
    have hc : ((i : ℝ) + 1) < ((j : ℝ) + 1) := by
      have : (i : ℝ) < (j : ℝ) := Nat.cast_lt.mpr hij
      linarith
    have := mul_lt_mul_of_neg_right hc hdP
    linarith
  · intro k hk
    have h1 : ((k + 1 : ℕ) : ℝ) < (Pbeg - Pend) / (-dP) := Nat.lt_ceil.mp hk
    have h2 := mul_lt_mul_of_pos_right h1 hndP
    rw [div_mul_cancel₀ _ (ne_of_gt hndP)] at h2
    push_cast at h2
    linarith
  · have h1 : (Pbeg - Pend) / (-dP) ≤ (⌈(Pbeg - Pend) / (-dP)⌉₊ : ℝ) := Nat.le_ceil _
    have h2 := mul_le_mul_of_nonneg_right h1 hndP.le
    rw [div_mul_cancel₀ _ (ne_of_gt hndP)] at h2
    nlinarith
  · intro hle
    have h0 : (Pbeg - Pend) / (-dP) ≤ 0 :=
      div_nonpos_iff.mpr (Or.inr ⟨by linarith, hndP.le⟩)
    rw [Nat.ceil_eq_zero.mpr h0]
    simp

/-- Witness for the amended C6: with the ideal stepper, `Pbeg = 2`,
`Pend = 0`, `dP = -1` and fuel 2, the loop terminates and marches the
pressure down across `Pend`. -/
theorem moist_adiabat_descending_witness :
    ∃ Tx : List ℝ,
      moist_adiabat integrate_id 300 2 0 (-1) 2 =
        some (Tx, (List.range ⌈((2 : ℝ) - 0) / (-(-1))⌉₊).map
          fun k : ℕ => 2 + ((k : ℝ) + 1) * (-1)) ∧
      ((List.range ⌈((2 : ℝ) - 0) / (-(-1))⌉₊).map
        fun k : ℕ => 2 + ((k : ℝ) + 1) * (-1)).Pairwise (fun a b => b < a) ∧
      (∀ k : ℕ, k + 1 < ⌈((2 : ℝ) - 0) / (-(-1))⌉₊ → (0 : ℝ) < 2 + ((k : ℝ) + 1) * (-1)) ∧
      (2 : ℝ) + (⌈((2 : ℝ) - 0) / (-(-1))⌉₊ : ℝ) * (-1) ≤ 0 ∧
      ((2 : ℝ) ≤ 0 → ((List.range ⌈((2 : ℝ) - 0) / (-(-1))⌉₊).map
        fun k : ℕ => 2 + ((k : ℝ) + 1) * (-1)) = ([] : List ℝ)) :=
  moist_adiabat_descending integrate_id (fun _ _ => rfl) (fun _ _ => rfl)
    300 2 0 (-1) (by norm_num) 2
    (by rw [show ((2 : ℝ) - 0) / (-(-1)) = 2 by norm_num]
        simp [Nat.ceil_ofNat])

/-- C6 counterexample: an increasing-pressure (descent) call with a sign of
`dP` consistent with the direction from `P_begin = 90000` to
`P_end = 100000` returns empty trajectories immediately — the loop guard
`r.t > Pend` fails at once, so the pressure is never stepped toward `P_end`
and never crosses it. -/
theorem moist_adiabat_no_descent :
    moist_adiabat integrate_id 300 90000 100000 1000 5 = some ([], []) := by
  show moist_adiabat_loop integrate_id 1000 100000 5 ⟨90000, 300, true⟩ ([], []) = _
  rw [show (5 : ℕ) = 4 + 1 from rfl]
  simp only [moist_adiabat_loop]
  rw [if_neg]
  rintro ⟨-, h⟩
  have h2 : (100000 : ℝ) < 90000 := h
  linarith

/-- Auxiliary: a failing step makes the `moist_adiabat` while-loop append
the failed step's state and exit normally with the truncated trajectory. -/
lemma moist_adiabat_loop_fail_step (integrate : ℝ → OdeState → OdeState)
    (dP Pend : ℝ) (fuel : ℕ) (s : OdeState) (acc : List ℝ × List ℝ)
    (hok : s.ok = true) (hgt : Pend < s.t)
    (hfail : (integrate (s.t + dP) s).ok = false) :
    moist_adiabat_loop integrate dP Pend (fuel + 1) s acc =
      some (acc.1 ++ [(integrate (s.t + dP) s).y],
        acc.2 ++ [(integrate (s.t + dP) s).t]) := by
  have hcond : ¬((integrate (s.t + dP) s).ok = true ∧ Pend < (integrate (s.t + dP) s).t) := by
    rintro ⟨h, -⟩
    rw [hfail] at h
    exact Bool.false_ne_true h
  simp only [moist_adiabat_loop]
  rw [if_pos ⟨hok, hgt⟩]
  cases fuel with
  | zero => simp only [moist_adiabat_loop]; rw [if_neg hcond]
  | succ m => simp only [moist_adiabat_loop]; rw [if_neg hcond]

/-- C9 amended: when a step of the abstracted integrator reports failure,
the loop appends that step's state, observes `r.successful() = False`,
exits, and returns the truncated trajectory accumulated so far as a normal
value — no error of any kind is raised. -/
theorem moist_adiabat_failure_truncates (integrate : ℝ → OdeState → OdeState)
    (dP Pend : ℝ) (fuel : ℕ) (s : OdeState) (acc : List ℝ × List ℝ)
    (hok : s.ok = true) (hgt : Pend < s.t)
    (hfail : (integrate (s.t + dP) s).ok = false) :
    moist_adiabat_loop integrate dP Pend (fuel + 1) s acc =
      some (acc.1 ++ [(integrate (s.t + dP) s).y],
        acc.2 ++ [(integrate (s.t + dP) s).t]) :=
  moist_adiabat_loop_fail_step integrate dP Pend fuel s acc hok hgt hfail

/-- Witness for the amended C9 with the failing stepper at a concrete
state. -/
theorem moist_adiabat_failure_truncates_witness :
    moist_adiabat_loop integrate_fail (-1000) 90000 (3 + 1) ⟨100000, 300, true⟩ ([], []) =
      some (([] : List ℝ) ++ [(integrate_fail ((100000 : ℝ) + -1000) ⟨100000, 300, true⟩).y],
        ([] : List ℝ) ++ [(integrate_fail ((100000 : ℝ) + -1000) ⟨100000, 300, true⟩).t]) :=
  moist_adiabat_failure_truncates integrate_fail (-1000) 90000 3 ⟨100000, 300, true⟩ ([], [])
    rfl (by norm_num) rfl

/-- C9 counterexample: integrating from 100000 Pa toward 90000 Pa with a
stepper whose first step fails, the call returns the truncated trajectory
`([300], [99000])` as a normal value instead of failing with a numerical
instability error. -/
theorem moist_adiabat_silent_truncation :
    moist_adiabat integrate_fail 300 100000 90000 (-1000) 10 = some ([300], [99000]) := by
  show moist_adiabat_loop integrate_fail (-1000) 90000 (9 + 1) ⟨100000, 300, true⟩ ([], []) = _
  refine (moist_adiabat_loop_fail_step integrate_fail (-1000) 90000 9 ⟨100000, 300, true⟩
    ([], []) rfl ?_ rfl).trans ?_
  · show (90000 : ℝ) < 100000
    norm_num
  · norm_num [integrate_fail]

end MoistThermodynamics
